import Mathlib

/-!
Verification of the crawl orchestration engine of the cnmcScrapper repository.

The development shallowly embeds the pure control logic of
`src/scraper/main.py` (retry/backoff, the two-pass scan/fetch scheduler with
checkpoints), `src/scraper/database.py` (change-detection upsert),
`src/scraper/parser.py` (detail-page extraction) and
`src/scraper/proxy_pool.py` (rotation cooldown).  Network, browser and regex
collaborators are modelled as oracles supplied to each function, matching the
spec's collaborator contracts.
-/

namespace CnmcScraper

/- ## Data model and operations, embedded from the source -/

/-- Constant `MAX_PAGES` from `main.py`. -/
def MAX_PAGES : Nat := 50

/-- Constant `EMPTY_PAGE_THRESHOLD` from `main.py`. -/
def EMPTY_PAGE_THRESHOLD : Nat := 3

/-- Outcome of one call to `browser.fetch` inside `fetch_with_retry`:
either usable html, html carrying a block marker ("Access Denied" /
"403 Forbidden", which the code turns into a raised exception), or a raised
exception from the fetch itself. -/
inductive FetchOut where
  | ok (html : String)
  | blocked
  | err
deriving DecidableEq, Repr

/-- The html returned by an attempt, `none` when the attempt raises
(`blocked` raises via the explicit 403 check, `err` raises in `fetch`). -/
def attemptResult : FetchOut → Option String
  | .ok h => some h
  | .blocked => none
  | .err => none

/-- An attempt counts as failed when it raises. -/
def FetchOut.isFail (o : FetchOut) : Bool := (attemptResult o).isNone

/-- Result of a `fetch_with_retry` run: the returned value, the backoff
sleeps performed in order, and how many fetch attempts were made. -/
structure FetchResult where
  result : Option String
  sleeps : List Nat
  attempts : Nat
deriving DecidableEq, Repr

/-- The retry loop of `fetch_with_retry` (`main.py` lines 33-57) with
`proxy_pool = None`.  `fuel` is the number of loop iterations left, so the
current 0-indexed attempt is paired with `fuel + attempt = max_attempts`;
`delay = 2 ** attempt * base_delay` and the sleep is skipped on the last
attempt (`attempt < max_attempts - 1` is `fuel ≠ 0` after consuming one). -/
def fetchLoop (outcome : Nat → FetchOut) (base : Nat) : Nat → Nat → FetchResult
  | _, 0 => ⟨none, [], 0⟩
  | attempt, fuel + 1 =>
    match attemptResult (outcome attempt) with
    | some h => ⟨some h, [], 1⟩
    | none =>
      if fuel = 0 then ⟨none, [], 1⟩
      else
        let r := fetchLoop outcome base (attempt + 1) fuel
        ⟨r.result, 2 ^ attempt * base :: r.sleeps, r.attempts + 1⟩

/-- Function `fetch_with_retry(browser, url, config, logger)` without a proxy pool. -/
def fetch_with_retry (outcome : Nat → FetchOut) (base maxAttempts : Nat) : FetchResult :=
  fetchLoop outcome base 0 maxAttempts

/-- The retry loop of `fetch_with_retry` when a proxy pool is supplied.
`outcome` may depend on the proxy in use, `rot k` is the proxy returned by
the `k`-th `get_proxy()` call.  On any failure while holding a proxy the code
blacklists it, takes the next proxy and, if one exists, retries immediately
(`continue`) with no sleep; otherwise it falls through to the backoff path. -/
def fetchLoopPool (outcome : Nat → Option Nat → FetchOut) (rot : Nat → Option Nat)
    (base : Nat) : Nat → Nat → Nat → Option Nat → FetchResult
  | _, 0, _, _ => ⟨none, [], 0⟩
  | attempt, fuel + 1, rotCount, proxy =>
    match attemptResult (outcome attempt proxy) with
    | some h => ⟨some h, [], 1⟩
    | none =>
      match proxy, rot rotCount with
      | some _, some p =>
        let r := fetchLoopPool outcome rot base (attempt + 1) fuel (rotCount + 1) (some p)
        ⟨r.result, r.sleeps, r.attempts + 1⟩
      | some _, none =>
        if fuel = 0 then ⟨none, [], 1⟩
        else
          let r := fetchLoopPool outcome rot base (attempt + 1) fuel (rotCount + 1) none
          ⟨r.result, 2 ^ attempt * base :: r.sleeps, r.attempts + 1⟩
      | none, _ =>
        if fuel = 0 then ⟨none, [], 1⟩
        else
          let r := fetchLoopPool outcome rot base (attempt + 1) fuel rotCount none
          ⟨r.result, 2 ^ attempt * base :: r.sleeps, r.attempts + 1⟩

/-- Function `fetch_with_retry` with a proxy pool: the initial proxy is the first
`get_proxy()` result (`main.py` line 31). -/
def fetch_with_retry_pool (outcome : Nat → Option Nat → FetchOut)
    (rot : Nat → Option Nat) (base maxAttempts : Nat) : FetchResult :=
  fetchLoopPool outcome rot base 0 maxAttempts 1 (rot 0)

/-- Constant `MIN_ROTATION_WAIT` from `proxy_pool.py`. -/
def MIN_ROTATION_WAIT : ℚ := 10

/-- Method `ProxyPool._rotate` (`proxy_pool.py` lines 64-78), successful-signal case:
given the current wall-clock time and the time of the last successful
rotation, returns the sleep performed and the instant at which the NEWNYM
rotation request is issued (which also becomes the new `_last_rotation`). -/
def rotateStep (now lastRot : ℚ) : ℚ × ℚ :=
  let elapsed := now - lastRot
  let sleep := if elapsed < MIN_ROTATION_WAIT then MIN_ROTATION_WAIT - elapsed else 0
  (sleep, now + sleep)

/-- A field value of a parsed record: string, integer, or nullable numeric
(the coordinates, which may be absent). -/
inductive Val where
  | vs (s : String)
  | vn (n : Nat)
  | vq (q : Option Int)
deriving DecidableEq, Repr

/-- The classification returned by `upsert_restaurant`. -/
inductive Action where
  | added
  | modified
  | unchanged
deriving DecidableEq, Repr

/-- The `data` dict handed to `Database.upsert_restaurant`: the natural key,
the content hash used for change detection, and the remaining domain fields. -/
structure RestData where
  michelin_id : String
  content_hash : String
  fields : List (String × Val)
deriving DecidableEq, Repr

/-- A row of the `restaurants` table. -/
structure RestRow where
  rowId : Nat
  data : RestData
  created_at : Nat
  updated_at : Nat
deriving DecidableEq, Repr

/-- A row of the `restaurant_history` table: the full prior row is archived
as the snapshot. -/
structure HistEntry where
  restaurant_id : Nat
  content_hash : String
  snapshot : RestRow
  changed_at : Nat
deriving DecidableEq, Repr

/-- The database state: the `restaurants` rows, the `restaurant_history`
rows, and the AUTOINCREMENT counter. -/
structure DB where
  rows : List RestRow
  history : List HistEntry
  nextId : Nat
deriving DecidableEq, Repr

/-- Method `Database.get_by_michelin_id`. -/
def getByMichelinId (db : DB) (mid : String) : Option RestRow :=
  db.rows.find? (fun r => r.data.michelin_id == mid)

/-- Method `Database.upsert_restaurant` (`database.py` lines 68-105): insert when the
natural key is unknown; return `unchanged` without writing when the stored
`content_hash` matches; otherwise archive the prior row via `_save_history`
and overwrite (keeping `created_at`, refreshing `updated_at`). -/
def upsert_restaurant (db : DB) (d : RestData) (now : Nat) : DB × Action :=
  match getByMichelinId db d.michelin_id with
  | none =>
      (⟨db.rows ++ [⟨db.nextId, d, now, now⟩], db.history, db.nextId + 1⟩, .added)
  | some r =>
      if r.data.content_hash == d.content_hash then (db, .unchanged)
      else
        (⟨db.rows.map (fun x =>
            if x.data.michelin_id == d.michelin_id then ⟨x.rowId, d, x.created_at, now⟩ else x),
          db.history ++ [⟨r.rowId, r.data.content_hash, r, now⟩],
          db.nextId⟩, .modified)

/-- The `pass_phase` field of a checkpoint. -/
inductive Phase where
  | scan
  | scrape
deriving DecidableEq, Repr

/-- A checkpoint as written by `save_checkpoint`: scan-phase checkpoints carry
`last_page`, scrape-phase ones do not. -/
structure Checkpoint where
  pass_phase : Phase
  last_page : Option Nat
  collected_urls : List String
  processed_urls : List String
deriving DecidableEq, Repr

/-- The data-model invariant of checkpoints: `processedUrls ⊆ discoveredUrls`
and the discovered list is deduplicated. -/
def checkpointInv (cp : Checkpoint) : Prop :=
  (∀ u ∈ cp.processed_urls, u ∈ cp.collected_urls) ∧ cp.collected_urls.Nodup

/-- Result of the scan pass: the page number at which the loop stopped, the
final consecutive-empty counter, the collected URL list, and the checkpoints
saved along the way. -/
structure ScanResult where
  nextPage : Nat
  consec : Nat
  collected : List String
  cps : List Checkpoint
deriving DecidableEq, Repr

/-- Record one more saved checkpoint in front of a scan result. -/
def withCp (cp : Checkpoint) (r : ScanResult) : ScanResult :=
  ⟨r.nextPage, r.consec, r.collected, cp :: r.cps⟩

/-- The `seen`/append loop of `main.py` lines 216-219: append each URL of the
page that is not already collected (`seen` always equals the set of
`collected_urls`, so membership is checked against the list itself). -/
def dedupAppend (collected rests : List String) : List String :=
  rests.foldl (fun acc r => if acc.contains r then acc else acc ++ [r]) collected

/-- The scan loop of `run_full_scrape` (`main.py` lines 199-235).  `pages n`
is the URL list that `scrape_listing_page` yields for page `n` (empty both
for a truly empty page and for a failed fetch).  `fuel` models the bound
`page_num ≤ MAX_PAGES`: it is `MAX_PAGES + 1 - page_num` iterations left.
`pr` is the processed-URLs list carried into every saved checkpoint. -/
def scanLoop (pages : Nat → List String) (pr : List String) :
    Nat → Nat → Nat → List String → ScanResult
  | 0, pageNum, consec, collected => ⟨pageNum, consec, collected, []⟩
  | fuel + 1, pageNum, consec, collected =>
    if EMPTY_PAGE_THRESHOLD ≤ consec then ⟨pageNum, consec, collected, []⟩
    else if pages pageNum = [] then
      withCp ⟨.scan, some pageNum, collected, pr⟩
        (scanLoop pages pr fuel (pageNum + 1) (consec + 1) collected)
    else
      withCp ⟨.scan, some pageNum, dedupAppend collected (pages pageNum), pr⟩
        (scanLoop pages pr fuel (pageNum + 1) 0 (dedupAppend collected (pages pageNum)))

/-- The scan pass started at `start_page = last_page + 1` with the collected
list loaded from the checkpoint and `consecutive_empty = 0`. -/
def runScan (pages : Nat → List String) (pr : List String) (startPage : Nat)
    (collected₀ : List String) : ScanResult :=
  scanLoop pages pr (MAX_PAGES + 1 - startPage) startPage 0 collected₀

/-- Outcome of handling one detail URL in pass 2: the fetch returned nothing,
the parse result was falsy, or a record was extracted. -/
inductive DetailOut where
  | fetchFail
  | parseFail
  | parsed (d : RestData)
deriving DecidableEq, Repr

/-- Whether the outcome increments the `failed` counter. -/
def DetailOut.isFailOut : DetailOut → Bool
  | .fetchFail => true
  | .parseFail => true
  | .parsed _ => false

/-- The `total_stats` counters. -/
structure Stats where
  added : Nat
  modified : Nat
  unchanged : Nat
  failed : Nat
deriving DecidableEq, Repr

/-- Increment `total_stats[action] += 1`. -/
def bumpStats (s : Stats) (a : Action) : Stats :=
  match a with
  | .added => { s with added := s.added + 1 }
  | .modified => { s with modified := s.modified + 1 }
  | .unchanged => { s with unchanged := s.unchanged + 1 }

/-- State carried through the fetch pass: the database, the counters, the
processed-URL set, the checkpoints saved at batch boundaries, and the trace
of URLs passed to `fetch_with_retry`, in order. -/
structure Pass2State where
  db : DB
  stats : Stats
  processed : List String
  cps : List Checkpoint
  trace : List String
deriving DecidableEq, Repr

/-- One iteration of the pass-2 loop (`main.py` lines 256-297) on item `i`
(0-indexed): fetch (recorded in the trace); on fetch or parse failure bump
`failed`, mark processed and `continue` (skipping the batch block); otherwise
upsert, bump the action counter, mark processed, and save a checkpoint when
`(i + 1) % batch_size == 0`. -/
def pass2Step (detail : String → DetailOut) (collected : List String) (batch : Nat)
    (st : Pass2State) (i : Nat) (url : String) : Pass2State :=
  let st1 := { st with trace := st.trace ++ [url] }
  match detail url with
  | .fetchFail =>
      { st1 with stats := { st1.stats with failed := st1.stats.failed + 1 },
                 processed := st1.processed.insert url }
  | .parseFail =>
      { st1 with stats := { st1.stats with failed := st1.stats.failed + 1 },
                 processed := st1.processed.insert url }
  | .parsed d =>
      let res := upsert_restaurant st1.db d i
      let st2 := { st1 with db := res.1, stats := bumpStats st1.stats res.2,
                            processed := st1.processed.insert url }
      if (i + 1) % batch == 0 then
        { st2 with cps := st2.cps ++ [⟨.scrape, none, collected, st2.processed⟩] }
      else st2

/-- The pass-2 loop over the enumerated remaining URLs. -/
def pass2Go (detail : String → DetailOut) (collected : List String) (batch : Nat) :
    Nat → Pass2State → List String → Pass2State
  | _, st, [] => st
  | i, st, url :: rest =>
      pass2Go detail collected batch (i + 1) (pass2Step detail collected batch st i url) rest

/-- Computes `remaining = [u for u in collected_urls if u not in processed_urls]`. -/
def remainingOf (collected processed : List String) : List String :=
  collected.filter (fun u => !(processed.contains u))

/-- The pass-2 state at entry: counters zeroed, processed loaded from the
checkpoint, no checkpoints saved, no fetches yet. -/
def initPass2State (db₀ : DB) (processed₀ : List String) : Pass2State :=
  ⟨db₀, ⟨0, 0, 0, 0⟩, processed₀, [], []⟩

/-- Pass 2 of `run_full_scrape`, complete run. -/
def pass2Run (detail : String → DetailOut) (collected processed₀ : List String)
    (db₀ : DB) (batch : Nat) : Pass2State :=
  pass2Go detail collected batch 0 (initPass2State db₀ processed₀)
    (remainingOf collected processed₀)

/-- Pass 2 interrupted after the first `k` items. -/
def pass2RunUpTo (detail : String → DetailOut) (collected processed₀ : List String)
    (db₀ : DB) (batch k : Nat) : Pass2State :=
  pass2Go detail collected batch 0 (initPass2State db₀ processed₀)
    ((remainingOf collected processed₀).take k)

/-- All checkpoints saved by a `run_full_scrape` invocation that starts from
checkpoint state (`phase`, `lastPage`, `collected₀`, `processed₀`): the
scan-phase checkpoints, then the phase-transition checkpoint, then the
batch checkpoints of pass 2 (the scan pass is skipped entirely when the
loaded phase is already `scrape`). -/
def fullRunCps (pages : Nat → List String) (detail : String → DetailOut)
    (phase : Phase) (lastPage : Nat) (collected₀ processed₀ : List String)
    (db₀ : DB) (batch : Nat) : List Checkpoint :=
  match phase with
  | .scan =>
      (runScan pages processed₀ (lastPage + 1) collected₀).cps ++
        (⟨.scrape, none, (runScan pages processed₀ (lastPage + 1) collected₀).collected,
            processed₀⟩ ::
          (pass2Run detail (runScan pages processed₀ (lastPage + 1) collected₀).collected
            processed₀ db₀ batch).cps)
  | .scrape => (pass2Run detail collected₀ processed₀ db₀ batch).cps

/-- The page oracle refuting C6 as literally stated: pages 4-6 repeat the URL
`a` already discovered on page 1 (so they yield zero *new* URLs), while
pages 7 and beyond are empty. -/
def pagesDup : Nat → List String := fun n =>
  if n = 1 then ["a"] else if n = 2 then ["b"] else if n = 3 then ["c"]
  else if n ≤ 6 then ["a"] else []

/-- The volatile bookkeeping keys excluded from the fingerprint
(`parser.py` line 164). -/
def VOLATILE_KEYS : List String := ["created_at", "updated_at"]

/-- Tagged serialization of a field value. -/
def serializeVal : Val → String
  | .vs s => "s:" ++ s
  | .vn n => "n:" ++ toString n
  | .vq none => "q:"
  | .vq (some i) => "q:" ++ toString i

/-- The keys of a field dict in canonical (sorted) order. -/
def canonicalKeys (fields : List (String × Val)) : List String :=
  (fields.map (fun kv => kv.1)).mergeSort (fun a b => decide (a ≤ b))

/-- Modelled from the spec: `compute_content_hash` is imported by `parser.py`
from `utils.py`, but the `utils.py` in the repository does not define it.
Per the spec (§4.3) it is a pure, order-independent hash over the domain
fields, "computed by canonicalizing field order before hashing": here the
fields are serialized in sorted-key order and the canonical serialization
stands in for the digest. -/
def compute_content_hash (fields : List (String × Val)) : String :=
  ((canonicalKeys fields).map
    (fun k => k ++ "=" ++ (((fields.lookup k).map serializeVal).getD "") ++ ";")).foldl
      (fun acc part => acc ++ part) ""

/-- The regex-level view of a detail page: for each pattern of
`parse_detail_page`, the matched (stripped) text, or `none` when the pattern
is absent from the html. -/
structure Html where
  h1 : Option String
  star3 : Bool
  star2 : Bool
  star1 : Bool
  bib : Bool
  addrDiv : Option String
  streetAddr : Option String
  locality : Option String
  region : Option String
  price : Option String
  cuisineSpan : Option String
  servesCuisine : Option String
  descDiv : Option String
  lat : Option Int
  lon : Option Int
  phone : Option String
  website : Option String
  image : Option String
  ogImage : Option String
deriving DecidableEq, Repr

/-- Function `_extract_michelin_id`: last path segment of the URL after stripping
trailing slashes. -/
def extract_michelin_id (url : String) : String :=
  (((url.dropRightWhile (fun c => c == '/')).splitOn "/").getLast?).getD ""

/-- The field dict built by `parse_detail_page` (`parser.py` lines 78-161),
in source insertion order, before the hash is appended: each field falls back
to its default (`""`, `0`, or `None`) when its pattern is absent. -/
def parseEntries (h : Html) (url : String) : List (String × Val) :=
  [("michelin_url", Val.vs url),
   ("michelin_id", Val.vs (extract_michelin_id url)),
   ("name", Val.vs (h.h1.getD "")),
   ("stars", Val.vn (if h.star3 then 3 else if h.star2 then 2 else if h.star1 then 1 else 0)),
   ("bib_gourmand", Val.vn (if h.bib then 1 else 0)),
   ("address", Val.vs ((h.addrDiv.or h.streetAddr).getD "")),
   ("city", Val.vs (h.locality.getD "")),
   ("region", Val.vs (h.region.getD "")),
   ("price_range", Val.vs (h.price.getD "")),
   ("cuisine_types", Val.vs ((h.cuisineSpan.or h.servesCuisine).getD "")),
   ("description", Val.vs (h.descDiv.getD "")),
   ("latitude", Val.vq h.lat),
   ("longitude", Val.vq h.lon),
   ("phone", Val.vs (h.phone.getD "")),
   ("website", Val.vs (h.website.getD "")),
   ("image_url", Val.vs ((h.image.or h.ogImage).getD ""))]

/-- Function `parse_detail_page`: always returns the field dict with the content hash
over the non-volatile fields appended; there is no failure path. -/
def parse_detail_page (h : Html) (url : String) : Option (List (String × Val)) :=
  some (parseEntries h url ++
    [("content_hash",
      Val.vs (compute_content_hash ((parseEntries h url).filter
        (fun kv => !(VOLATILE_KEYS.contains kv.1)))))])

/-- Read a string value out of an optional field. -/
def strOfVal : Option Val → String
  | some (.vs s) => s
  | _ => ""

/-- Package a parsed dict as the upsert payload. -/
def dataOfEntries (d : List (String × Val)) : RestData :=
  ⟨strOfVal (d.lookup "michelin_id"), strOfVal (d.lookup "content_hash"), d⟩

/-- The detail-step oracle of pass 2 as composed in `main.py` lines 260-270:
fetch, then parse, with the parse result tested for Python falsiness
(`None` or empty dict). -/
def detailOf (fetchO : String → Option Html) : String → DetailOut :=
  fun url =>
    match fetchO url with
    | none => .fetchFail
    | some h =>
      match parse_detail_page h url with
      | none => .parseFail
      | some d => if d.isEmpty then .parseFail else .parsed (dataOfEntries d)

/-- The all-patterns-absent page. -/
def emptyHtml : Html :=
  ⟨none, false, false, false, false, none, none, none, none, none, none, none,
    none, none, none, none, none, none, none⟩

/- ## Properties -/

lemma fetchLoop_allFail (outcome : Nat → FetchOut) (base : Nat) :
    ∀ fuel attempt, (∀ i, attempt ≤ i → i < attempt + fuel → (outcome i).isFail = true) →
      fetchLoop outcome base attempt fuel =
        ⟨none, (List.range' attempt (fuel - 1)).map (fun i => 2 ^ i * base), fuel⟩ := by
  intro fuel
  induction fuel with
  | zero => intro attempt _; rfl
  | succ f ih =>
    intro attempt hfail
    have h0 : (outcome attempt).isFail = true :=
      hfail attempt (Nat.le_refl _) (by omega)
    have hres : attemptResult (outcome attempt) = none := by
      unfold FetchOut.isFail at h0
      exact Option.isNone_iff_eq_none.mp h0
    rcases Nat.eq_zero_or_pos f with hf | hf
    · subst hf
      simp [fetchLoop, hres]
    · have hf0 : f ≠ 0 := Nat.pos_iff_ne_zero.mp hf
      have ihapp := ih (attempt + 1) (fun i h1 h2 => hfail i (by omega) (by omega))
      simp only [fetchLoop, hres, if_neg hf0, ihapp]
      obtain ⟨f', rfl⟩ : ∃ f', f = f' + 1 := ⟨f - 1, by omega⟩
      simp [List.range'_succ]

lemma fetchLoop_succeedAt (outcome : Nat → FetchOut) (base : Nat) :
    ∀ k fuel attempt h, (∀ i, attempt ≤ i → i < attempt + k → (outcome i).isFail = true) →
      outcome (attempt + k) = .ok h → k < fuel →
      fetchLoop outcome base attempt fuel =
        ⟨some h, (List.range' attempt k).map (fun i => 2 ^ i * base), k + 1⟩ := by
  intro k
  induction k with
  | zero =>
    intro fuel attempt h _ hok hlt
    obtain ⟨f', rfl⟩ : ∃ f', fuel = f' + 1 := ⟨fuel - 1, by omega⟩
    have : attemptResult (outcome attempt) = some h := by
      simp only [Nat.add_zero] at hok
      rw [hok]; rfl
    simp [fetchLoop, this]
  | succ n ih =>
    intro fuel attempt h hfail hok hlt
    obtain ⟨f', rfl⟩ : ∃ f', fuel = f' + 1 := ⟨fuel - 1, by omega⟩
    have h0 : (outcome attempt).isFail = true := hfail attempt (Nat.le_refl _) (by omega)
    have hres : attemptResult (outcome attempt) = none := by
      unfold FetchOut.isFail at h0
      exact Option.isNone_iff_eq_none.mp h0
    have hf0 : f' ≠ 0 := by omega
    have ihapp := ih f' (attempt + 1) h (fun i h1 h2 => hfail i (by omega) (by omega))
      (by rw [← hok]; ring_nf) (by omega)
    simp only [fetchLoop, hres, if_neg hf0, ihapp, List.range'_succ]
    simp

lemma fetchLoop_attempts_le (outcome : Nat → FetchOut) (base : Nat) :
    ∀ fuel attempt, (fetchLoop outcome base attempt fuel).attempts ≤ fuel := by
  intro fuel
  induction fuel with
  | zero => intro attempt; simp [fetchLoop]
  | succ f ih =>
    intro attempt
    simp only [fetchLoop]
    cases attemptResult (outcome attempt) with
    | some h => simp
    | none =>
      by_cases hf : f = 0
      · simp [hf]
      · simpa [hf] using Nat.succ_le_succ (ih (attempt + 1))

lemma geom_sleep_sum (base : Nat) :
    ∀ n, (((List.range' 0 n).map (fun i => 2 ^ i * base)).sum) = (2 ^ n - 1) * base := by
  intro n
  induction n with
  | zero => simp
  | succ m ih =>
    rw [List.range'_1_concat]
    simp only [List.map_append, List.sum_append, ih, List.map_cons, List.map_nil,
      List.sum_cons, List.sum_nil, Nat.zero_add, Nat.add_zero, pow_succ]
    obtain ⟨k, hk⟩ : ∃ k, 2 ^ m = k + 1 := ⟨2 ^ m - 1, by have : (1:Nat) ≤ 2 ^ m := Nat.one_le_two_pow; omega⟩
    rw [hk]
    have h3 : (k + 1) * 2 - 1 = 2 * k + 1 := by omega
    have h4 : k + 1 - 1 = k := by omega
    rw [h3, h4]
    ring

/-- C2: the function `fetch_with_retry` follows the exponential backoff schedule: after the
`a`-th consecutive failed attempt (1-indexed) it sleeps `base * 2 ^ (a - 1)`
(0-indexed: `2 ^ attempt * base`), it does not sleep after the final attempt,
it returns `None` after `maxAttempts` failed attempts with total sleep
`base * (2 ^ (maxAttempts - 1) - 1)` (so `5 + 10 = 15` for
`maxAttempts = 3, base = 5`), on intermediate success it returns the html
having slept exactly the prefix of the schedule, and it never makes more than
`maxAttempts` attempts. -/
theorem fetch_with_retry_backoff_schedule (outcome : Nat → FetchOut)
    (base maxAttempts : Nat) :
    ((∀ i, i < maxAttempts → (outcome i).isFail = true) →
      fetch_with_retry outcome base maxAttempts =
        ⟨none, (List.range (maxAttempts - 1)).map (fun i => 2 ^ i * base), maxAttempts⟩) ∧
    ((∀ i, i < maxAttempts → (outcome i).isFail = true) →
      (fetch_with_retry outcome base maxAttempts).sleeps.sum =
        (2 ^ (maxAttempts - 1) - 1) * base) ∧
    (∀ k h, k < maxAttempts → (∀ i, i < k → (outcome i).isFail = true) →
      outcome k = .ok h →
      fetch_with_retry outcome base maxAttempts =
        ⟨some h, (List.range k).map (fun i => 2 ^ i * base), k + 1⟩) ∧
    (fetch_with_retry outcome base maxAttempts).attempts ≤ maxAttempts := by
  have hall : (∀ i, i < maxAttempts → (outcome i).isFail = true) →
      fetch_with_retry outcome base maxAttempts =
        ⟨none, (List.range (maxAttempts - 1)).map (fun i => 2 ^ i * base), maxAttempts⟩ := by
    intro hfail
    unfold fetch_with_retry
    rw [fetchLoop_allFail outcome base maxAttempts 0 (fun i h1 h2 => hfail i (by omega))]
    rw [List.range_eq_range']
  refine ⟨hall, ?_, ?_, ?_⟩
  · intro hfail
    rw [hall hfail]
    simpa [List.range_eq_range'] using geom_sleep_sum base (maxAttempts - 1)
  · intro k h hk hfail hok
    unfold fetch_with_retry
    rw [fetchLoop_succeedAt outcome base k maxAttempts 0 h
      (fun i h1 h2 => hfail i (by omega)) (by simpa using hok) hk]
    rw [List.range_eq_range']
  · exact fetchLoop_attempts_le outcome base maxAttempts 0

/-- C2 witness: with `maxAttempts = 3`, `base = 5` and every attempt failing,
the run returns `None` after 3 attempts with sleeps `[5, 10]`, total 15. -/
theorem fetch_with_retry_backoff_schedule_witness :
    fetch_with_retry (fun _ => FetchOut.err) 5 3 = ⟨none, [5, 10], 3⟩ ∧
    (fetch_with_retry (fun _ => FetchOut.err) 5 3).sleeps.sum = 15 := by
  have h := fetch_with_retry_backoff_schedule (fun _ => FetchOut.err) 5 3
  have h1 := h.1 (fun i _ => rfl)
  constructor
  · rw [h1]; decide
  · rw [h1]; decide

lemma fetchLoopPool_allFail_allRot (outcome : Nat → Option Nat → FetchOut)
    (rot : Nat → Nat) (base : Nat)
    (hfail : ∀ a p, (outcome a p).isFail = true) :
    ∀ fuel attempt rotCount p,
      fetchLoopPool outcome (fun k => some (rot k)) base attempt fuel rotCount (some p) =
        ⟨none, [], fuel⟩ := by
  intro fuel
  induction fuel with
  | zero => intro attempt rotCount p; rfl
  | succ f ih =>
    intro attempt rotCount p
    have hres : attemptResult (outcome attempt (some p)) = none := by
      have := hfail attempt (some p)
      unfold FetchOut.isFail at this
      exact Option.isNone_iff_eq_none.mp this
    simp [fetchLoopPool, hres, ih]

/-- C3 (amended): the immediate-retry-without-backoff behaviour on failure
(block signals included) exists only on the proxy-pool path: when a pool is
supplied and `get_proxy` keeps yielding a replacement proxy, every failing
attempt blacklists the current proxy and retries immediately — no backoff
sleeps — still bounded by `maxAttempts` attempts; whereas without a proxy
pool a block signal (403 page) on the first attempt incurs the normal
exponential backoff sleep of `base` time units before the retry, and
`ProxyPool.force_rotate` is not involved in this path at all. -/
theorem block_signal_rotation_amended (outcome : Nat → Option Nat → FetchOut)
    (rot : Nat → Nat) (outcome2 : Nat → FetchOut) (base maxAttempts : Nat)
    (hfail : ∀ a p, (outcome a p).isFail = true)
    (hblock : outcome2 0 = FetchOut.blocked) (hA : 2 ≤ maxAttempts) :
    fetch_with_retry_pool outcome (fun k => some (rot k)) base maxAttempts =
      ⟨none, [], maxAttempts⟩ ∧
    (fetch_with_retry outcome2 base maxAttempts).sleeps.head? = some base := by
  constructor
  · unfold fetch_with_retry_pool
    exact fetchLoopPool_allFail_allRot outcome rot base hfail maxAttempts 0 1 (rot 0)
  · obtain ⟨f, rfl⟩ : ∃ f, maxAttempts = f + 1 := ⟨maxAttempts - 1, by omega⟩
    have hf0 : f ≠ 0 := by omega
    have hres : attemptResult (outcome2 0) = none := by rw [hblock]; rfl
    simp [fetch_with_retry, fetchLoop, hres, hf0]

/-- C3 witness: three blocked attempts with an always-replenishing pool give
no sleeps and exactly 3 attempts; without a pool the blocked first attempt is
followed by a 5 time-unit backoff sleep. -/
theorem block_signal_rotation_amended_witness :
    fetch_with_retry_pool (fun _ _ => FetchOut.blocked) (fun k => some k) 5 3 =
      ⟨none, [], 3⟩ ∧
    (fetch_with_retry (fun _ => FetchOut.blocked) 5 3).sleeps.head? = some 5 := by
  exact block_signal_rotation_amended (fun _ _ => FetchOut.blocked) (fun k => k)
    (fun _ => FetchOut.blocked) 5 3 (fun _ _ => rfl) rfl (by omega)

/-- C3 counterexample: with no proxy pool supplied and every response carrying
a block marker (403), `fetch_with_retry` performs the backoff sleeps `[5, 10]`
— the block signal is retried *with* backoff delay and no identity rotation,
contradicting the claim that block signals are retried immediately without
backoff whenever observed, not only when a proxy pool is supplied. -/
theorem block_signal_backoff_counterexample :
    (fetch_with_retry (fun _ => FetchOut.blocked) 5 3).sleeps = [5, 10] ∧
    (fetch_with_retry (fun _ => FetchOut.blocked) 5 3).result = none := by
  constructor <;> rfl

/-- C8: the method `ProxyPool._rotate` sleeps exactly the remaining cooldown when called
within `MIN_ROTATION_WAIT` of the previous successful rotation (and nothing
otherwise), so the instant at which the rotation request is issued is always
at least `MIN_ROTATION_WAIT` after the previous rotation. -/
theorem rotation_cooldown_separation (now lastRot : ℚ) :
    (now - lastRot < MIN_ROTATION_WAIT →
      (rotateStep now lastRot).1 = MIN_ROTATION_WAIT - (now - lastRot)) ∧
    (MIN_ROTATION_WAIT ≤ now - lastRot → (rotateStep now lastRot).1 = 0) ∧
    MIN_ROTATION_WAIT ≤ (rotateStep now lastRot).2 - lastRot := by
  unfold rotateStep MIN_ROTATION_WAIT
  refine ⟨?_, ?_, ?_⟩
  · intro h; simp only [if_pos h]
  · intro h; simp only [if_neg (not_lt.mpr h)]
  · by_cases h : now - lastRot < 10
    · simp only [if_pos h]; linarith
    · simp only [if_neg h]; push_neg at h; linarith

/-- C8 witness: a rotation requested 3 time units after the previous one
sleeps exactly 7 and issues the request 10 units after the previous one. -/
theorem rotation_cooldown_separation_witness :
    (rotateStep 3 0).1 = 7 ∧ (10 : ℚ) ≤ (rotateStep 3 0).2 - 0 := by
  have h := rotation_cooldown_separation 3 0
  refine ⟨?_, ?_⟩
  · have := h.1 (by norm_num [MIN_ROTATION_WAIT])
    rw [this]; norm_num [MIN_ROTATION_WAIT]
  · have := h.2.2
    simpa [MIN_ROTATION_WAIT] using this

lemma find?_map_of_pred_eq {α β : Type} (f : α → β) (p : β → Bool) (q : α → Bool)
    (h : ∀ x, p (f x) = q x) : ∀ l : List α, (l.map f).find? p = (l.find? q).map f := by
  intro l
  induction l with
  | nil => rfl
  | cons x xs ih =>
    simp only [List.map_cons, List.find?_cons, h x]
    cases hq : q x
    · simp only [Bool.false_eq_true, if_false, ih]
    · simp only [if_true]
      rfl

lemma find?_map_rewrite_key (rows : List RestRow) (d : RestData) (now : Nat) :
    (rows.map (fun x =>
        if x.data.michelin_id == d.michelin_id then RestRow.mk x.rowId d x.created_at now else x)).find?
          (fun r => r.data.michelin_id == d.michelin_id)
      = (rows.find? (fun r => r.data.michelin_id == d.michelin_id)).map
          (fun x =>
            if x.data.michelin_id == d.michelin_id then RestRow.mk x.rowId d x.created_at now else x) := by
  apply find?_map_of_pred_eq
  intro x
  by_cases h : (x.data.michelin_id == d.michelin_id) = true
  · simp only [if_pos h, h]
    simp
  · simp only [if_neg h]

/-- C4: classification and write behaviour of `upsert_restaurant`: an unknown
natural key yields `added` with no history snapshot; a matching stored hash
yields `unchanged` with no write at all; a differing hash yields `modified`
with the full prior row archived in history; and a second upsert of identical
data is always `unchanged` and writes nothing. -/
theorem upsert_change_classification (db : DB) (d : RestData) (now : Nat) :
    (getByMichelinId db d.michelin_id = none →
      (upsert_restaurant db d now).2 = Action.added ∧
      (upsert_restaurant db d now).1.history = db.history ∧
      (upsert_restaurant db d now).1.rows = db.rows ++ [⟨db.nextId, d, now, now⟩]) ∧
    (∀ r, getByMichelinId db d.michelin_id = some r → r.data.content_hash = d.content_hash →
      upsert_restaurant db d now = (db, Action.unchanged)) ∧
    (∀ r, getByMichelinId db d.michelin_id = some r → r.data.content_hash ≠ d.content_hash →
      (upsert_restaurant db d now).2 = Action.modified ∧
      (upsert_restaurant db d now).1.history =
        db.history ++ [⟨r.rowId, r.data.content_hash, r, now⟩]) ∧
    (∀ t, upsert_restaurant (upsert_restaurant db d now).1 d t =
      ((upsert_restaurant db d now).1, Action.unchanged)) := by
  refine ⟨?_, ?_, ?_, ?_⟩
  · intro hfind
    simp [upsert_restaurant, hfind]
  · intro r hfind hhash
    have hb : (r.data.content_hash == d.content_hash) = true := beq_iff_eq.mpr hhash
    simp [upsert_restaurant, hfind, hb]
  · intro r hfind hhash
    have hb : (r.data.content_hash == d.content_hash) = false := by
      rw [Bool.eq_false_iff]
      intro hc
      exact hhash (eq_of_beq hc)
    simp [upsert_restaurant, hfind, hb]
  · intro t
    cases hfind : getByMichelinId db d.michelin_id with
    | none =>
      have hrows : (upsert_restaurant db d now).1.rows =
          db.rows ++ [⟨db.nextId, d, now, now⟩] := by
        simp [upsert_restaurant, hfind]
      have hfind2 : getByMichelinId (upsert_restaurant db d now).1 d.michelin_id =
          some ⟨db.nextId, d, now, now⟩ := by
        unfold getByMichelinId
        rw [hrows, List.find?_append]
        unfold getByMichelinId at hfind
        rw [hfind]
        simp
      generalize (upsert_restaurant db d now).1 = db1 at hfind2 ⊢
      simp [upsert_restaurant, hfind2]
    | some r =>
      by_cases hb : (r.data.content_hash == d.content_hash) = true
      · have heq : upsert_restaurant db d now = (db, Action.unchanged) := by
          simp [upsert_restaurant, hfind, hb]
        rw [heq]
        simp [upsert_restaurant, hfind, hb]
      · have hbf : (r.data.content_hash == d.content_hash) = false := by
          rwa [Bool.not_eq_true] at hb
        have hpr : (r.data.michelin_id == d.michelin_id) = true := by
          unfold getByMichelinId at hfind
          have h2 := List.find?_some hfind
          simpa using h2
        have hrows : (upsert_restaurant db d now).1.rows =
            db.rows.map (fun x =>
              if x.data.michelin_id == d.michelin_id then ⟨x.rowId, d, x.created_at, now⟩ else x) := by
          simp [upsert_restaurant, hfind, hbf]
        have hfind2 : getByMichelinId (upsert_restaurant db d now).1 d.michelin_id =
            some ⟨r.rowId, d, r.created_at, now⟩ := by
          unfold getByMichelinId
          rw [hrows, find?_map_rewrite_key]
          unfold getByMichelinId at hfind
          rw [hfind]
          simp [hpr, eq_of_beq hpr]
        generalize (upsert_restaurant db d now).1 = db1 at hfind2 ⊢
        simp [upsert_restaurant, hfind2]

/-- C4 witness: inserting a record into an empty database is `added`, and
re-upserting the identical record is `unchanged` and leaves the database
exactly as it was. -/
theorem upsert_change_classification_witness :
    (upsert_restaurant ⟨[], [], 1⟩ ⟨"rest-1", "h1", []⟩ 5).2 = Action.added ∧
    upsert_restaurant (upsert_restaurant ⟨[], [], 1⟩ ⟨"rest-1", "h1", []⟩ 5).1
        ⟨"rest-1", "h1", []⟩ 9 =
      ((upsert_restaurant ⟨[], [], 1⟩ ⟨"rest-1", "h1", []⟩ 5).1, Action.unchanged) := by
  have h := upsert_change_classification ⟨[], [], 1⟩ ⟨"rest-1", "h1", []⟩ 5
  exact ⟨(h.1 rfl).1, h.2.2.2 9⟩

lemma bumpStats_failed (s : Stats) (a : Action) : (bumpStats s a).failed = s.failed := by
  cases a <;> rfl

lemma bumpStats_sum (s : Stats) (a : Action) :
    (bumpStats s a).added + (bumpStats s a).modified + (bumpStats s a).unchanged =
      s.added + s.modified + s.unchanged + 1 := by
  cases a <;> simp [bumpStats] <;> omega

lemma pass2Step_trace (detail : String → DetailOut) (collected : List String)
    (batch : Nat) (st : Pass2State) (i : Nat) (url : String) :
    (pass2Step detail collected batch st i url).trace = st.trace ++ [url] := by
  cases hd : detail url <;> simp only [pass2Step, hd] <;>
    first
      | rfl
      | (split <;> rfl)

lemma pass2Step_processed (detail : String → DetailOut) (collected : List String)
    (batch : Nat) (st : Pass2State) (i : Nat) (url : String) :
    (pass2Step detail collected batch st i url).processed = st.processed.insert url := by
  cases hd : detail url <;> simp only [pass2Step, hd] <;>
    first
      | rfl
      | (split <;> rfl)

lemma pass2Step_failed (detail : String → DetailOut) (collected : List String)
    (batch : Nat) (st : Pass2State) (i : Nat) (url : String) :
    (pass2Step detail collected batch st i url).stats.failed =
      st.stats.failed + (if (detail url).isFailOut then 1 else 0) := by
  cases hd : detail url <;> simp only [pass2Step, hd, DetailOut.isFailOut] <;>
    first
      | (split <;> simp_all [bumpStats_failed])
      | simp

lemma pass2Step_sum (detail : String → DetailOut) (collected : List String)
    (batch : Nat) (st : Pass2State) (i : Nat) (url : String) :
    (pass2Step detail collected batch st i url).stats.added +
      (pass2Step detail collected batch st i url).stats.modified +
      (pass2Step detail collected batch st i url).stats.unchanged +
      (pass2Step detail collected batch st i url).stats.failed =
      st.stats.added + st.stats.modified + st.stats.unchanged + st.stats.failed + 1 := by
  cases hd : detail url <;> simp only [pass2Step, hd] <;>
    first
      | omega
      | (split <;> simp [bumpStats_failed, bumpStats_sum] <;> omega)

lemma pass2Go_trace (detail : String → DetailOut) (collected : List String) (batch : Nat) :
    ∀ l i st, (pass2Go detail collected batch i st l).trace = st.trace ++ l := by
  intro l
  induction l with
  | nil => intro i st; simp [pass2Go]
  | cons url rest ih =>
    intro i st
    rw [pass2Go, ih, pass2Step_trace]
    simp

lemma pass2Go_failed (detail : String → DetailOut) (collected : List String) (batch : Nat) :
    ∀ l i st, (pass2Go detail collected batch i st l).stats.failed =
      st.stats.failed + (l.filter (fun u => (detail u).isFailOut)).length := by
  intro l
  induction l with
  | nil => intro i st; simp [pass2Go]
  | cons url rest ih =>
    intro i st
    rw [pass2Go, ih, pass2Step_failed, List.filter_cons]
    cases hf : (detail url).isFailOut <;> simp [hf] <;> omega

lemma pass2Go_processed (detail : String → DetailOut) (collected : List String) (batch : Nat) :
    ∀ l i st u, u ∈ (pass2Go detail collected batch i st l).processed ↔
      u ∈ st.processed ∨ u ∈ l := by
  intro l
  induction l with
  | nil => intro i st u; simp [pass2Go]
  | cons url rest ih =>
    intro i st u
    rw [pass2Go, ih, pass2Step_processed]
    simp only [List.mem_insert_iff, List.mem_cons]
    tauto

lemma pass2Go_sum (detail : String → DetailOut) (collected : List String) (batch : Nat) :
    ∀ l i st, (pass2Go detail collected batch i st l).stats.added +
      (pass2Go detail collected batch i st l).stats.modified +
      (pass2Go detail collected batch i st l).stats.unchanged +
      (pass2Go detail collected batch i st l).stats.failed =
      st.stats.added + st.stats.modified + st.stats.unchanged + st.stats.failed + l.length := by
  intro l
  induction l with
  | nil => intro i st; simp [pass2Go]
  | cons url rest ih =>
    intro i st
    rw [pass2Go, ih, List.length_cons]
    rw [pass2Step_sum]
    omega

lemma contains_false_of_not_mem {l : List String} {u : String} (h : u ∉ l) :
    l.contains u = false := by
  rw [← Bool.not_eq_true]
  intro hc
  exact h (List.elem_iff.mp hc)

/-- C1: pass 2 fetches exactly the order-preserving complement
`remaining = collected − processed`: the trace of URLs handed to the fetcher
is precisely `remainingOf collected processed₀`; that list is a sublist of
`collected` (order preserved), duplicate-free, contains every collected URL
that is not processed, no processed URL, and each of its members exactly
once. -/
theorem fetch_phase_processes_exact_complement (detail : String → DetailOut)
    (collected processed₀ : List String) (db₀ : DB) (batch : Nat)
    (hnd : collected.Nodup) :
    (pass2Run detail collected processed₀ db₀ batch).trace =
      remainingOf collected processed₀ ∧
    (remainingOf collected processed₀).Sublist collected ∧
    (remainingOf collected processed₀).Nodup ∧
    (∀ u ∈ collected, u ∉ processed₀ → u ∈ remainingOf collected processed₀) ∧
    (∀ u ∈ processed₀, u ∉ remainingOf collected processed₀) ∧
    (∀ u ∈ remainingOf collected processed₀,
      (remainingOf collected processed₀).count u = 1) := by
  refine ⟨?_, List.filter_sublist _, hnd.filter _, ?_, ?_, ?_⟩
  · unfold pass2Run
    rw [pass2Go_trace]
    rfl
  · intro u hu hnp
    rw [remainingOf, List.mem_filter]
    exact ⟨hu, by simpa using hnp⟩
  · intro u hu hmem
    rw [remainingOf, List.mem_filter] at hmem
    have h2 := hmem.2
    simp at h2
    exact h2 hu
  · intro u hu
    exact List.count_eq_one_of_mem (hnd.filter _) hu

/-- C1 witness: with `collected = [a, b, c]` and `processed = [b]`, pass 2
fetches exactly `[a, c]` and `b` is not in the remaining list. -/
theorem fetch_phase_processes_exact_complement_witness :
    (pass2Run (fun _ => DetailOut.fetchFail) ["a", "b", "c"] ["b"] ⟨[], [], 1⟩ 25).trace =
      ["a", "c"] ∧
    "b" ∉ remainingOf ["a", "b", "c"] ["b"] := by
  have h := fetch_phase_processes_exact_complement (fun _ => DetailOut.fetchFail)
    ["a", "b", "c"] ["b"] ⟨[], [], 1⟩ 25 (by decide)
  refine ⟨?_, h.2.2.2.2.1 "b" (by decide)⟩
  rw [h.1]
  decide

/-- C5: in pass 2 (fresh run), `failed` counts exactly the URLs whose fetch
or extraction failed among the first `k` processed; every failing URL is
still marked processed (so never retried on resume); the processed set is
exactly the first `k` discovered URLs; the four reported counters sum to the
number of items processed; and every discovered URL is in exactly one of the
states processed-success, processed-failed, pending. -/
theorem fetch_phase_failure_accounting (detail : String → DetailOut)
    (collected : List String) (db₀ : DB) (batch k : Nat) :
    (pass2RunUpTo detail collected [] db₀ batch k).stats.failed =
      ((collected.take k).filter (fun u => (detail u).isFailOut)).length ∧
    (∀ u ∈ collected.take k, (detail u).isFailOut = true →
      u ∈ (pass2RunUpTo detail collected [] db₀ batch k).processed) ∧
    (∀ u, u ∈ (pass2RunUpTo detail collected [] db₀ batch k).processed ↔
      u ∈ collected.take k) ∧
    ((pass2RunUpTo detail collected [] db₀ batch k).stats.added +
      (pass2RunUpTo detail collected [] db₀ batch k).stats.modified +
      (pass2RunUpTo detail collected [] db₀ batch k).stats.unchanged +
      (pass2RunUpTo detail collected [] db₀ batch k).stats.failed =
      (collected.take k).length) ∧
    (∀ u ∈ collected,
      ((u ∈ (pass2RunUpTo detail collected [] db₀ batch k).processed ∧
          (detail u).isFailOut = false) ∧
        ¬(u ∈ (pass2RunUpTo detail collected [] db₀ batch k).processed ∧
          (detail u).isFailOut = true) ∧
        ¬u ∉ (pass2RunUpTo detail collected [] db₀ batch k).processed) ∨
      (¬(u ∈ (pass2RunUpTo detail collected [] db₀ batch k).processed ∧
          (detail u).isFailOut = false) ∧
        (u ∈ (pass2RunUpTo detail collected [] db₀ batch k).processed ∧
          (detail u).isFailOut = true) ∧
        ¬u ∉ (pass2RunUpTo detail collected [] db₀ batch k).processed) ∨
      (¬(u ∈ (pass2RunUpTo detail collected [] db₀ batch k).processed ∧
          (detail u).isFailOut = false) ∧
        ¬(u ∈ (pass2RunUpTo detail collected [] db₀ batch k).processed ∧
          (detail u).isFailOut = true) ∧
        u ∉ (pass2RunUpTo detail collected [] db₀ batch k).processed)) := by
  have hrem : remainingOf collected [] = collected := by
    simp [remainingOf]
  refine ⟨?_, ?_, ?_, ?_, ?_⟩
  · unfold pass2RunUpTo
    rw [pass2Go_failed, hrem]
    simp [initPass2State]
  · intro u hu _
    unfold pass2RunUpTo
    rw [pass2Go_processed, hrem]
    exact Or.inr hu
  · intro u
    unfold pass2RunUpTo
    rw [pass2Go_processed, hrem]
    simp [initPass2State]
  · unfold pass2RunUpTo
    rw [pass2Go_sum, hrem]
    simp [initPass2State]
  · intro u _
    by_cases hp : u ∈ (pass2RunUpTo detail collected [] db₀ batch k).processed
    · cases hf : (detail u).isFailOut
      · exact Or.inl ⟨⟨hp, rfl⟩, by simp [hf], by simp [hp]⟩
      · exact Or.inr (Or.inl ⟨by simp [hf], ⟨hp, rfl⟩, by simp [hp]⟩)
    · exact Or.inr (Or.inr ⟨by simp [hp], by simp [hp], hp⟩)

/-- C5 witness: three discovered URLs with the middle one failing: `failed`
is 1 and the failing URL `b` is marked processed. -/
theorem fetch_phase_failure_accounting_witness :
    (pass2RunUpTo (fun u => if u = "b" then DetailOut.fetchFail
        else DetailOut.parsed ⟨"x", "h", []⟩) ["a", "b", "c"] [] ⟨[], [], 1⟩ 25 3).stats.failed
      = 1 ∧
    "b" ∈ (pass2RunUpTo (fun u => if u = "b" then DetailOut.fetchFail
        else DetailOut.parsed ⟨"x", "h", []⟩) ["a", "b", "c"] [] ⟨[], [], 1⟩ 25 3).processed := by
  have h := fetch_phase_failure_accounting (fun u => if u = "b" then DetailOut.fetchFail
    else DetailOut.parsed ⟨"x", "h", []⟩) ["a", "b", "c"] ⟨[], [], 1⟩ 25 3
  refine ⟨?_, h.2.1 "b" (by decide) (by decide)⟩
  rw [h.1]
  decide

lemma dedupAppend_cons (coll : List String) (r : String) (rest : List String) :
    dedupAppend coll (r :: rest) =
      dedupAppend (if coll.contains r then coll else coll ++ [r]) rest := rfl

lemma dedupAppend_grows : ∀ (l coll : List String), coll <+: dedupAppend coll l := by
  intro l
  induction l with
  | nil => intro coll; exact ⟨[], by simp [dedupAppend]⟩
  | cons r rest ih =>
    intro coll
    rw [dedupAppend_cons]
    have hpre : coll <+: (if coll.contains r then coll else coll ++ [r]) := by
      by_cases h : coll.contains r = true
      · rw [if_pos h]
      · rw [if_neg h]
        exact ⟨[r], rfl⟩
    exact hpre.trans (ih _)

lemma dedupAppend_nodup : ∀ (l coll : List String), coll.Nodup → (dedupAppend coll l).Nodup := by
  intro l
  induction l with
  | nil => intro coll h; exact h
  | cons r rest ih =>
    intro coll h
    rw [dedupAppend_cons]
    apply ih
    by_cases hc : coll.contains r = true
    · rwa [if_pos hc]
    · rw [if_neg hc]
      have hnm : r ∉ coll := fun hm => hc (List.elem_iff.mpr hm)
      simp [List.nodup_append, h, hnm]

lemma dedupAppend_mem_left {coll : List String} {u : String} (l : List String)
    (h : u ∈ coll) : u ∈ dedupAppend coll l :=
  ((dedupAppend_grows l coll).sublist).subset h

lemma scanLoop_exit (pages : Nat → List String) (pr : List String)
    (fuel p c : Nat) (coll : List String) (hc : EMPTY_PAGE_THRESHOLD ≤ c) :
    scanLoop pages pr fuel p c coll = ⟨p, c, coll, []⟩ := by
  cases fuel
  · rfl
  · simp [scanLoop, hc]

lemma scanLoop_step_empty (pages : Nat → List String) (pr : List String)
    (fuel p c : Nat) (coll : List String)
    (hc : c < EMPTY_PAGE_THRESHOLD) (hp : pages p = []) :
    scanLoop pages pr (fuel + 1) p c coll =
      withCp ⟨Phase.scan, some p, coll, pr⟩
        (scanLoop pages pr fuel (p + 1) (c + 1) coll) := by
  simp [scanLoop, Nat.not_le.mpr hc, hp]

lemma scanLoop_step_nonempty (pages : Nat → List String) (pr : List String)
    (fuel p c : Nat) (coll : List String)
    (hc : c < EMPTY_PAGE_THRESHOLD) (hp : pages p ≠ []) :
    scanLoop pages pr (fuel + 1) p c coll =
      withCp ⟨Phase.scan, some p, dedupAppend coll (pages p), pr⟩
        (scanLoop pages pr fuel (p + 1) 0 (dedupAppend coll (pages p))) := by
  simp [scanLoop, Nat.not_le.mpr hc, hp]

/-- C6 (amended): the scan phase stops exactly when the page bound
(`MAX_PAGES`, modelled by the fuel running out) is reached or
`EMPTY_PAGE_THRESHOLD = 3` consecutive pages yielded *zero URLs* (an empty
parse result; a page whose URLs were all previously seen still counts as
non-empty and resets the counter); and for a sequence whose pages 4, 5, 6
yield no URLs while pages 1-3 are non-empty, scanning halts after page 6
with exactly the URLs of pages 1-3 collected. -/
theorem scan_termination_amended (pages : Nat → List String)
    (h1 : pages 1 ≠ []) (h2 : pages 2 ≠ []) (h3 : pages 3 ≠ [])
    (h4 : pages 4 = []) (h5 : pages 5 = []) (h6 : pages 6 = []) :
    (∀ (pr : List String) fuel p c coll,
      (scanLoop pages pr fuel p c coll).nextPage = p + fuel ∨
      EMPTY_PAGE_THRESHOLD ≤ (scanLoop pages pr fuel p c coll).consec) ∧
    (∀ (pr : List String) fuel p c coll, c < EMPTY_PAGE_THRESHOLD → pages p ≠ [] →
      scanLoop pages pr (fuel + 1) p c coll =
        withCp ⟨Phase.scan, some p, dedupAppend coll (pages p), pr⟩
          (scanLoop pages pr fuel (p + 1) 0 (dedupAppend coll (pages p)))) ∧
    (runScan pages [] 1 []).nextPage = 7 ∧
    (runScan pages [] 1 []).collected =
      dedupAppend (dedupAppend (dedupAppend [] (pages 1)) (pages 2)) (pages 3) := by
  have hrun : (runScan pages [] 1 []).nextPage = 7 ∧
      (runScan pages [] 1 []).collected =
        dedupAppend (dedupAppend (dedupAppend [] (pages 1)) (pages 2)) (pages 3) := by
    have e0 : runScan pages [] 1 [] = scanLoop pages [] 50 1 0 [] := rfl
    rw [e0]
    rw [show (50 : Nat) = 49 + 1 from rfl,
      scanLoop_step_nonempty pages [] 49 1 0 [] (by decide) h1]
    rw [show (49 : Nat) = 48 + 1 from rfl,
      scanLoop_step_nonempty pages [] 48 2 0 (dedupAppend [] (pages 1)) (by decide) h2]
    rw [show (48 : Nat) = 47 + 1 from rfl,
      scanLoop_step_nonempty pages [] 47 3 0
        (dedupAppend (dedupAppend [] (pages 1)) (pages 2)) (by decide) h3]
    rw [show (47 : Nat) = 46 + 1 from rfl,
      scanLoop_step_empty pages [] 46 4 0
        (dedupAppend (dedupAppend (dedupAppend [] (pages 1)) (pages 2)) (pages 3))
        (by decide) h4]
    rw [show (46 : Nat) = 45 + 1 from rfl,
      scanLoop_step_empty pages [] 45 5 1
        (dedupAppend (dedupAppend (dedupAppend [] (pages 1)) (pages 2)) (pages 3))
        (by decide) h5]
    rw [show (45 : Nat) = 44 + 1 from rfl,
      scanLoop_step_empty pages [] 44 6 2
        (dedupAppend (dedupAppend (dedupAppend [] (pages 1)) (pages 2)) (pages 3))
        (by decide) h6]
    rw [scanLoop_exit pages [] 44 7 3
      (dedupAppend (dedupAppend (dedupAppend [] (pages 1)) (pages 2)) (pages 3)) (by decide)]
    simp [withCp]
  refine ⟨?_, ?_, hrun.1, hrun.2⟩
  · intro pr fuel
    induction fuel with
    | zero =>
      intro p c coll
      left
      rfl
    | succ f ihf =>
      intro p c coll
      by_cases hc : EMPTY_PAGE_THRESHOLD ≤ c
      · right
        rw [scanLoop_exit pages pr (f + 1) p c coll hc]
        exact hc
      · have hc2 : c < EMPTY_PAGE_THRESHOLD := Nat.not_le.mp hc
        by_cases hp : pages p = []
        · rw [scanLoop_step_empty pages pr f p c coll hc2 hp]
          rcases ihf (p + 1) (c + 1) coll with hl | hr
          · left
            simp only [withCp, hl]
            omega
          · right
            simpa [withCp] using hr
        · rw [scanLoop_step_nonempty pages pr f p c coll hc2 hp]
          rcases ihf (p + 1) 0 (dedupAppend coll (pages p)) with hl | hr
          · left
            simp only [withCp, hl]
            omega
          · right
            simpa [withCp] using hr
  · intro pr fuel p c coll hc hp
    exact scanLoop_step_nonempty pages pr fuel p c coll hc hp

/-- C6 witness: pages 1-3 are `[a]`, `[b]`, `[c]` and everything from page 4
onwards is empty: the scan halts after page 6 and `[a, b, c]` is retained. -/
theorem scan_termination_amended_witness :
    (runScan (fun n => if n = 1 then ["a"] else if n = 2 then ["b"]
      else if n = 3 then ["c"] else []) [] 1 []).nextPage = 7 ∧
    (runScan (fun n => if n = 1 then ["a"] else if n = 2 then ["b"]
      else if n = 3 then ["c"] else []) [] 1 []).collected = ["a", "b", "c"] := by
  have h := scan_termination_amended (fun n => if n = 1 then ["a"] else if n = 2 then ["b"]
      else if n = 3 then ["c"] else []) (by decide) (by decide) (by decide)
    (by decide) (by decide) (by decide)
  refine ⟨h.2.2.1, ?_⟩
  rw [h.2.2.2]
  decide

/-- C6 counterexample: with pages 4, 5, 6 yielding only the already-seen URL
`a` (zero new URLs each), the scan does *not* halt after page 6: it keeps
scanning until pages 7-9 come back empty, stopping with `nextPage = 10`, not
7 — the code counts consecutive pages with an empty parse result, not pages
yielding zero new URLs. -/
theorem scan_zero_new_urls_counterexample :
    pagesDup 4 = ["a"] ∧ pagesDup 5 = ["a"] ∧ pagesDup 6 = ["a"] ∧
    (runScan pagesDup [] 1 []).collected = ["a", "b", "c"] ∧
    (runScan pagesDup [] 1 []).nextPage = 10 ∧
    (runScan pagesDup [] 1 []).nextPage ≠ 7 := by
  refine ⟨rfl, rfl, rfl, ?_, ?_, ?_⟩ <;> decide

lemma scanLoop_spec (pages : Nat → List String) (pr : List String) :
    ∀ fuel pageNum consec coll, (∀ u ∈ pr, u ∈ coll) → coll.Nodup →
      (∀ cp ∈ (scanLoop pages pr fuel pageNum consec coll).cps,
          checkpointInv cp ∧ cp.processed_urls = pr) ∧
      List.Chain' (fun a b : List String => a <+: b)
        (coll :: (scanLoop pages pr fuel pageNum consec coll).cps.map
          (fun cp => cp.collected_urls)) ∧
      (coll :: (scanLoop pages pr fuel pageNum consec coll).cps.map
          (fun cp => cp.collected_urls)).getLast?
        = some (scanLoop pages pr fuel pageNum consec coll).collected ∧
      (∀ u ∈ pr, u ∈ (scanLoop pages pr fuel pageNum consec coll).collected) ∧
      (scanLoop pages pr fuel pageNum consec coll).collected.Nodup := by
  intro fuel
  induction fuel with
  | zero =>
    intro pageNum consec coll hsub hnd
    refine ⟨?_, ?_, ?_, ?_, ?_⟩ <;> simp [scanLoop]
    · exact hsub
    · exact hnd
  | succ f ih =>
    intro pageNum consec coll hsub hnd
    by_cases hc : EMPTY_PAGE_THRESHOLD ≤ consec
    · rw [scanLoop_exit pages pr (f + 1) pageNum consec coll hc]
      refine ⟨?_, ?_, ?_, ?_, ?_⟩ <;> simp
      · exact hsub
      · exact hnd
    · have hc2 : consec < EMPTY_PAGE_THRESHOLD := Nat.not_le.mp hc
      by_cases hp : pages pageNum = []
      · rw [scanLoop_step_empty pages pr f pageNum consec coll hc2 hp]
        obtain ⟨ih1, ih2, ih3, ih4, ih5⟩ := ih (pageNum + 1) (consec + 1) coll hsub hnd
        refine ⟨?_, ?_, ?_, ?_, ?_⟩
        · intro cp hcp
          simp only [withCp, List.mem_cons] at hcp
          rcases hcp with rfl | hcp
          · exact ⟨⟨hsub, hnd⟩, rfl⟩
          · exact ih1 cp hcp
        · simp only [withCp, List.map_cons]
          rw [List.chain'_cons]
          exact ⟨⟨[], by simp⟩, ih2⟩
        · simp only [withCp, List.map_cons, List.getLast?_cons_cons]
          exact ih3
        · simpa [withCp] using ih4
        · simpa [withCp] using ih5
      · rw [scanLoop_step_nonempty pages pr f pageNum consec coll hc2 hp]
        have hsub2 : ∀ u ∈ pr, u ∈ dedupAppend coll (pages pageNum) :=
          fun u hu => dedupAppend_mem_left _ (hsub u hu)
        have hnd2 : (dedupAppend coll (pages pageNum)).Nodup :=
          dedupAppend_nodup _ _ hnd
        obtain ⟨ih1, ih2, ih3, ih4, ih5⟩ :=
          ih (pageNum + 1) 0 (dedupAppend coll (pages pageNum)) hsub2 hnd2
        refine ⟨?_, ?_, ?_, ?_, ?_⟩
        · intro cp hcp
          simp only [withCp, List.mem_cons] at hcp
          rcases hcp with rfl | hcp
          · exact ⟨⟨hsub2, hnd2⟩, rfl⟩
          · exact ih1 cp hcp
        · simp only [withCp, List.map_cons]
          rw [List.chain'_cons]
          exact ⟨dedupAppend_grows _ _, ih2⟩
        · simp only [withCp, List.map_cons, List.getLast?_cons_cons]
          exact ih3
        · simpa [withCp] using ih4
        · simpa [withCp] using ih5

lemma pass2Step_cps (detail : String → DetailOut) (collected : List String)
    (batch : Nat) (st : Pass2State) (i : Nat) (url : String) :
    (pass2Step detail collected batch st i url).cps = st.cps ∨
    (pass2Step detail collected batch st i url).cps =
      st.cps ++ [⟨Phase.scrape, none, collected, st.processed.insert url⟩] := by
  cases hd : detail url <;> simp only [pass2Step, hd]
  · left; trivial
  · left; trivial
  · split
    · right; trivial
    · left; trivial

lemma pass2Go_cps (detail : String → DetailOut) (collected : List String) (batch : Nat) :
    ∀ l i st, (∀ u ∈ st.processed, u ∈ collected) → (∀ u ∈ l, u ∈ collected) →
      (∀ cp ∈ st.cps, checkpointInv cp ∧ cp.collected_urls = collected) →
      collected.Nodup →
      (∀ cp ∈ (pass2Go detail collected batch i st l).cps,
        checkpointInv cp ∧ cp.collected_urls = collected) := by
  intro l
  induction l with
  | nil =>
    intro i st h1 h2 h3 _
    simpa [pass2Go] using h3
  | cons url rest ih =>
    intro i st h1 h2 h3 hnd
    rw [pass2Go]
    apply ih
    · rw [pass2Step_processed]
      intro u hu
      rcases List.mem_insert_iff.mp hu with rfl | hu
      · exact h2 u (List.mem_cons_self _ _)
      · exact h1 u hu
    · intro u hu
      exact h2 u (List.mem_cons_of_mem _ hu)
    · intro cp hcp
      rcases pass2Step_cps detail collected batch st i url with he | he <;> rw [he] at hcp
      · exact h3 cp hcp
      · rcases List.mem_append.mp hcp with hcp | hcp
        · exact h3 cp hcp
        · simp only [List.mem_singleton] at hcp
          subst hcp
          refine ⟨⟨?_, hnd⟩, rfl⟩
          intro u hu
          rcases List.mem_insert_iff.mp hu with rfl | hu
          · exact h2 u (List.mem_cons_self _ _)
          · exact h1 u hu
    · exact hnd

lemma chain_const_collected (collected : List String) :
    ∀ (cps : List Checkpoint), (∀ cp ∈ cps, cp.collected_urls = collected) →
      List.Chain' (fun a b : List String => a <+: b)
        (collected :: cps.map (fun cp => cp.collected_urls)) := by
  intro cps
  induction cps with
  | nil => intro _; exact List.chain'_singleton _
  | cons c rest ih =>
    intro h
    rw [List.map_cons, h c (List.mem_cons_self _ _), List.chain'_cons]
    exact ⟨⟨[], by simp⟩, ih (fun cp hcp => h cp (List.mem_cons_of_mem _ hcp))⟩

/-- C7: every checkpoint a run writes — during the scan phase, at the phase
transition, and at the batch boundaries of the fetch phase — satisfies the
data-model invariant `processed_urls ⊆ collected_urls` with a deduplicated
`collected_urls`, and the successive `collected_urls` lists grow only by
appending (each is a prefix of the next), provided the initial checkpoint
state satisfies the invariant (a fresh run starts from empty lists, which
do). -/
theorem checkpoint_invariant_preserved (pages : Nat → List String)
    (detail : String → DetailOut) (phase : Phase) (lastPage : Nat)
    (collected₀ processed₀ : List String) (db₀ : DB) (batch : Nat)
    (hsub : ∀ u ∈ processed₀, u ∈ collected₀) (hnd : collected₀.Nodup) :
    (∀ cp ∈ fullRunCps pages detail phase lastPage collected₀ processed₀ db₀ batch,
      checkpointInv cp) ∧
    List.Chain' (fun a b : List String => a <+: b)
      (collected₀ ::
        (fullRunCps pages detail phase lastPage collected₀ processed₀ db₀ batch).map
          (fun cp => cp.collected_urls)) := by
  cases phase with
  | scrape =>
    have hcps := pass2Go_cps detail collected₀ batch
      (remainingOf collected₀ processed₀) 0 (initPass2State db₀ processed₀)
      hsub (fun u hu => (List.filter_sublist _).subset hu)
      (by intro cp hcp; simp [initPass2State] at hcp) hnd
    constructor
    · intro cp hcp
      simp only [fullRunCps, pass2Run] at hcp
      exact (hcps cp hcp).1
    · simp only [fullRunCps, pass2Run]
      exact chain_const_collected collected₀ _ (fun cp hcp => (hcps cp hcp).2)
  | scan =>
    obtain ⟨s1, s2, s3, s4, s5⟩ := scanLoop_spec pages processed₀
      (MAX_PAGES + 1 - (lastPage + 1)) (lastPage + 1) 0 collected₀ hsub hnd
    have hrs : runScan pages processed₀ (lastPage + 1) collected₀ =
        scanLoop pages processed₀ (MAX_PAGES + 1 - (lastPage + 1)) (lastPage + 1) 0 collected₀ :=
      rfl
    have hcps := pass2Go_cps detail
      (runScan pages processed₀ (lastPage + 1) collected₀).collected batch
      (remainingOf (runScan pages processed₀ (lastPage + 1) collected₀).collected processed₀)
      0 (initPass2State db₀ processed₀)
      (by rw [hrs]; exact s4)
      (fun u hu => (List.filter_sublist _).subset hu)
      (by intro cp hcp; simp [initPass2State] at hcp)
      (by rw [hrs]; exact s5)
    constructor
    · intro cp hcp
      simp only [fullRunCps, pass2Run] at hcp
      rcases List.mem_append.mp hcp with hcp | hcp
      · rw [hrs] at hcp
        exact (s1 cp hcp).1
      · rcases List.mem_cons.mp hcp with rfl | hcp
        · exact ⟨by rw [hrs]; exact s4, by rw [hrs]; exact s5⟩
        · exact (hcps cp hcp).1
    · simp only [fullRunCps, pass2Run, List.map_append, List.map_cons]
      rw [← List.cons_append]
      rw [List.chain'_append]
      refine ⟨by rw [hrs]; exact s2, ?_, ?_⟩
      · exact chain_const_collected _ _ (fun cp hcp => (hcps cp hcp).2)
      · intro x hx y hy
        rw [hrs] at hx
        rw [s3] at hx
        simp only [Option.mem_def, Option.some_inj] at hx
        simp only [List.head?_cons, Option.mem_def, Option.some_inj] at hy
        subst hx
        subst hy
        rw [hrs]

/-- C7 witness: a fresh run over a site whose page 1 holds one URL and whose
later pages are empty writes, among others, the phase-transition checkpoint,
and it satisfies the invariant. -/
theorem checkpoint_invariant_preserved_witness :
    checkpointInv ⟨Phase.scrape, none, ["u1"], []⟩ := by
  have h := checkpoint_invariant_preserved (fun n => if n = 1 then ["u1"] else [])
    (fun _ => DetailOut.fetchFail) Phase.scan 0 [] [] ⟨[], [], 1⟩ 25
    (by intro u hu; cases hu) (by decide)
  exact h.1 ⟨Phase.scrape, none, ["u1"], []⟩ (by decide)

lemma lookup_eq_of_perm : ∀ {l₁ l₂ : List (String × Val)}, l₁.Perm l₂ →
    (l₁.map Prod.fst).Nodup → ∀ k, l₁.lookup k = l₂.lookup k := by
  intro l₁ l₂ hperm
  induction hperm with
  | nil => intro _ _; rfl
  | cons x t ih =>
    intro hnd k
    obtain ⟨xk, xv⟩ := x
    simp only [List.map_cons, List.nodup_cons] at hnd
    by_cases hk : (k == xk) = true
    · simp [List.lookup, hk]
    · rw [Bool.not_eq_true] at hk
      simp only [List.lookup, hk]
      exact ih hnd.2 k
  | swap x y t =>
    intro hnd k
    obtain ⟨xk, xv⟩ := x
    obtain ⟨yk, yv⟩ := y
    simp only [List.map_cons, List.nodup_cons, List.mem_cons] at hnd
    have hxy : ¬ yk = xk := fun he => hnd.1 (Or.inl he)
    by_cases h1 : (k == xk) = true <;> by_cases h2 : (k == yk) = true
    · exact absurd ((eq_of_beq h1).symm.trans (eq_of_beq h2)) (fun he => hxy he.symm)
    · rw [Bool.not_eq_true] at h2
      simp [List.lookup, h1, h2]
    · rw [Bool.not_eq_true] at h1
      simp [List.lookup, h1, h2]
    · rw [Bool.not_eq_true] at h1 h2
      simp [List.lookup, h1, h2]
  | trans p1 p2 ih1 ih2 =>
    intro hnd k
    have hnd2 := ((p1.map Prod.fst).nodup_iff).mp hnd
    rw [ih1 hnd k, ih2 hnd2 k]

lemma canonicalKeys_eq_of_perm {l₁ l₂ : List (String × Val)} (hperm : l₁.Perm l₂) :
    canonicalKeys l₁ = canonicalKeys l₂ := by
  unfold canonicalKeys
  have hsorted : ∀ (l : List (String × Val)),
      List.Sorted (fun a b : String => a ≤ b)
        ((l.map (fun kv => kv.1)).mergeSort (fun a b => decide (a ≤ b))) := by
    intro l
    have h := @List.sorted_mergeSort String (fun a b : String => decide (a ≤ b))
      (fun a b c hab hbc => by
        simp only [decide_eq_true_eq] at hab hbc ⊢
        exact le_trans hab hbc)
      (fun a b => by
        simp only [Bool.or_eq_true, decide_eq_true_eq]
        exact le_total a b)
      (l.map (fun kv => kv.1))
    exact h.imp (fun hab => by simpa using hab)
  apply List.eq_of_perm_of_sorted ?_ (hsorted l₁) (hsorted l₂)
  exact (List.mergeSort_perm _ _).trans
    ((hperm.map _).trans (List.mergeSort_perm _ _).symm)

/-- C9: the content fingerprint is a pure, order-independent function of the
field dict: any two field lists with the same key-value pairs (in any order,
with dict-unique keys) hash identically; and the volatile bookkeeping fields
`created_at` / `updated_at` are excluded by the parser's filter, so their
presence cannot affect the hash input. -/
theorem content_hash_order_independent (l₁ l₂ : List (String × Val))
    (hperm : l₁.Perm l₂) (hnd : (l₁.map Prod.fst).Nodup) :
    compute_content_hash l₁ = compute_content_hash l₂ ∧
    (∀ v w, compute_content_hash
        ((l₁ ++ [("created_at", v), ("updated_at", w)]).filter
          (fun kv => !(VOLATILE_KEYS.contains kv.1)))
      = compute_content_hash (l₁.filter (fun kv => !(VOLATILE_KEYS.contains kv.1)))) := by
  constructor
  · unfold compute_content_hash
    rw [canonicalKeys_eq_of_perm hperm]
    congr 1
    apply List.map_congr_left
    intro k _
    rw [lookup_eq_of_perm hperm hnd k]
  · intro v w
    have hnilf : (([("created_at", v), ("updated_at", w)] : List (String × Val)).filter
        (fun kv => !(VOLATILE_KEYS.contains kv.1))) = [] := rfl
    rw [List.filter_append, hnilf, List.append_nil]

/-- C9 witness: two insertion orders of the same two fields hash equal. -/
theorem content_hash_order_independent_witness :
    compute_content_hash [("b", Val.vn 1), ("a", Val.vs "x")] =
      compute_content_hash [("a", Val.vs "x"), ("b", Val.vn 1)] :=
  (content_hash_order_independent [("b", Val.vn 1), ("a", Val.vs "x")]
    [("a", Val.vs "x"), ("b", Val.vn 1)] (by decide) (by decide)).1

lemma detailOf_isFailOut (fetchO : String → Option Html) (u : String) :
    (detailOf fetchO u).isFailOut = (fetchO u).isNone := by
  unfold detailOf
  cases hf : fetchO u
  · rfl
  · rfl

/-- C10: the function `parse_detail_page` is total and never falsy: for every html and
url it returns a non-`None`, non-empty dict containing exactly the expected
keys, with each field present at its default when its pattern is absent;
consequently the `if not data` extraction-failure branch of the scheduler is
unreachable and the `failed` counter counts exactly the fetch failures. -/
theorem parse_detail_page_total_spec (h : Html) (url : String) :
    parse_detail_page h url ≠ none ∧
    (∀ d, parse_detail_page h url = some d → d ≠ [] ∧
      d.map Prod.fst = ["michelin_url", "michelin_id", "name", "stars", "bib_gourmand",
        "address", "city", "region", "price_range", "cuisine_types", "description",
        "latitude", "longitude", "phone", "website", "image_url", "content_hash"] ∧
      (h.h1 = none → d.lookup "name" = some (Val.vs "")) ∧
      (h.star3 = false → h.star2 = false → h.star1 = false →
        d.lookup "stars" = some (Val.vn 0)) ∧
      (h.bib = false → d.lookup "bib_gourmand" = some (Val.vn 0)) ∧
      (h.addrDiv = none → h.streetAddr = none → d.lookup "address" = some (Val.vs "")) ∧
      (h.locality = none → d.lookup "city" = some (Val.vs "")) ∧
      (h.region = none → d.lookup "region" = some (Val.vs "")) ∧
      (h.price = none → d.lookup "price_range" = some (Val.vs "")) ∧
      (h.cuisineSpan = none → h.servesCuisine = none →
        d.lookup "cuisine_types" = some (Val.vs "")) ∧
      (h.descDiv = none → d.lookup "description" = some (Val.vs "")) ∧
      (h.lat = none → d.lookup "latitude" = some (Val.vq none)) ∧
      (h.lon = none → d.lookup "longitude" = some (Val.vq none)) ∧
      (h.phone = none → d.lookup "phone" = some (Val.vs "")) ∧
      (h.website = none → d.lookup "website" = some (Val.vs "")) ∧
      (h.image = none → h.ogImage = none → d.lookup "image_url" = some (Val.vs ""))) ∧
    (∀ (fetchO : String → Option Html) (url2 : String),
      detailOf fetchO url2 ≠ DetailOut.parseFail) ∧
    (∀ (fetchO : String → Option Html) (collected processed₀ : List String)
        (db₀ : DB) (batch : Nat),
      (pass2Run (detailOf fetchO) collected processed₀ db₀ batch).stats.failed =
        ((remainingOf collected processed₀).filter
          (fun u => (fetchO u).isNone)).length) := by
  refine ⟨by simp [parse_detail_page], ?_, ?_, ?_⟩
  · intro d hd
    simp only [parse_detail_page, Option.some_inj] at hd
    subst hd
    refine ⟨by simp, rfl, ?_, ?_, ?_, ?_, ?_, ?_, ?_, ?_, ?_, ?_, ?_, ?_, ?_, ?_⟩
    · intro e1; rw [parseEntries, e1]; rfl
    · intro e1 e2 e3; rw [parseEntries, e1, e2, e3]; rfl
    · intro e1; rw [parseEntries, e1]; rfl
    · intro e1 e2; rw [parseEntries, e1, e2]; rfl
    · intro e1; rw [parseEntries, e1]; rfl
    · intro e1; rw [parseEntries, e1]; rfl
    · intro e1; rw [parseEntries, e1]; rfl
    · intro e1 e2; rw [parseEntries, e1, e2]; rfl
    · intro e1; rw [parseEntries, e1]; rfl
    · intro e1; rw [parseEntries, e1]; rfl
    · intro e1; rw [parseEntries, e1]; rfl
    · intro e1; rw [parseEntries, e1]; rfl
    · intro e1; rw [parseEntries, e1]; rfl
    · intro e1 e2; rw [parseEntries, e1, e2]; rfl
  · intro fetchO url2
    unfold detailOf
    cases hf : fetchO url2
    · simp
    · simp [parse_detail_page, parseEntries]
  · intro fetchO collected processed₀ db₀ batch
    unfold pass2Run
    rw [pass2Go_failed]
    have hfun : (fun u => (detailOf fetchO u).isFailOut) =
        (fun u => (fetchO u).isNone) := funext (detailOf_isFailOut fetchO)
    rw [hfun]
    simp [initPass2State]

/-- C10 witness: on a page where every pattern is absent, the parser still
returns a dict, `name` defaults to the empty string, and the composed detail
oracle is not a parse failure even when the fetch oracle always fails. -/
theorem parse_detail_page_total_spec_witness :
    parse_detail_page emptyHtml "u" ≠ none ∧
    ((parse_detail_page emptyHtml "u").getD []).lookup "name" = some (Val.vs "") ∧
    detailOf (fun _ => none) "u" ≠ DetailOut.parseFail := by
  have h := parse_detail_page_total_spec emptyHtml "u"
  have hsome : parse_detail_page emptyHtml "u" =
      some ((parse_detail_page emptyHtml "u").getD []) := rfl
  exact ⟨h.1, (h.2.1 _ hsome).2.2.1 rfl, h.2.2.1 (fun _ => none) "u"⟩

end CnmcScraper

